import Mathlib

/-!
Verification of the budget dashboard derivation layer.

The client code under `src/client/src/pages` is embedded shallowly:
JavaScript numbers that hold money amounts are modelled as rationals (ℚ),
`null`/`undefined`/non-numeric fields as `Option`, and JS arrays as lists.
Server-side aggregation code and the savings utilities are not part of the
source tree; where a claim depends on them they are modelled from the spec,
marked as such in their doc comments.
-/

namespace Budsjett

namespace Dashboard

/-- A category total item of the summary payload
(`summary.fixedExpenseCategoryTotals` entries in DashboardPage.jsx):
`category` label, numeric `total`, optional display `color`. -/
structure CategoryTotal where
  category : String
  total : ℚ
  color : Option String
deriving DecidableEq

/-- The summary payload fields that DashboardPage.jsx reads.
`none` models an absent (`undefined`/`null`) or non-numeric field. -/
structure Summary where
  fixedExpenseCategoryTotals : Option (List CategoryTotal)
  effectiveFixedExpenseTotal : Option ℚ
  fixedExpenseTotal : Option ℚ
  fixedExpensesTotal : Option ℚ
  activeMonthlyNetIncome : Option ℚ
  monthlyNetIncome : Option ℚ
  freeAfterFixed : Option ℚ
deriving DecidableEq

/-- `const fixedCategories = summary.fixedExpenseCategoryTotals || [];`
(DashboardPage.jsx line 53). -/
def fixedCategories (s : Summary) : List CategoryTotal :=
  s.fixedExpenseCategoryTotals.getD []

/-- `summary.effectiveFixedExpenseTotal ?? summary.fixedExpenseTotal ??
summary.fixedExpensesTotal ?? 0` (DashboardPage.jsx lines 70-71). -/
def defaultFixedTotal (s : Summary) : ℚ :=
  match s.effectiveFixedExpenseTotal with
  | some v => v
  | none =>
    match s.fixedExpenseTotal with
    | some v => v
    | none => s.fixedExpensesTotal.getD 0

/-- `fixedCategories.filter((item) => !hiddenCategorySet.has(item.category))`
(DashboardPage.jsx lines 65-68).  `hiddenCategorySet` is `new Set(hiddenCategories)`,
whose membership agrees with membership in the `hiddenCategories` array. -/
def visibleCategoryTotals (cats : List CategoryTotal) (hidden : List String) :
    List CategoryTotal :=
  cats.filter fun item => !(hidden.contains item.category)

/-- `visibleFixedTotal` (DashboardPage.jsx lines 73-78): the default total when
`fixedCategories` is empty, otherwise
`visibleCategoryTotals.reduce((sum, item) => sum + (Number(item.total) || 0), 0)`;
for the rational totals of the embedding `Number(item.total) || 0` is `item.total`. -/
def visibleFixedTotal (s : Summary) (hidden : List String) : ℚ :=
  if (fixedCategories s).length = 0 then defaultFixedTotal s
  else ((visibleCategoryTotals (fixedCategories s) hidden).map
    fun item => item.total).sum

/-- `activeMonthlyNetIncome` (DashboardPage.jsx lines 80-85): the summary field
of the same name when it is a number, else `summary.monthlyNetIncome` when it is
a number, else `null` (modelled as `none`). -/
def activeMonthlyNetIncome (s : Summary) : Option ℚ :=
  match s.activeMonthlyNetIncome with
  | some v => some v
  | none => s.monthlyNetIncome

/-- `visibleFreeAfterFixed` (DashboardPage.jsx lines 87-95):
`summary.freeAfterFixed ?? 0` when `fixedCategories` is empty, else
`activeMonthlyNetIncome - visibleFixedTotal` when the income is a number, else
`summary.freeAfterFixed ?? 0`. -/
def visibleFreeAfterFixed (s : Summary) (hidden : List String) : ℚ :=
  if (fixedCategories s).length = 0 then s.freeAfterFixed.getD 0
  else
    match activeMonthlyNetIncome s with
    | some inc => inc - visibleFixedTotal s hidden
    | none => s.freeAfterFixed.getD 0

/-- The membership-inverting update inside `handleLegendClick`
(DashboardPage.jsx lines 102-104):
`current.includes(label) ? current.filter((item) => item !== label) : [...current, label]`. -/
def toggleHidden (current : List String) (label : String) : List String :=
  if current.contains label then current.filter fun item => item ≠ label
  else current ++ [label]

/-- `handleLegendClick` (DashboardPage.jsx lines 97-107) as it acts on the
`hiddenCategories` state: the label read from the chart may be missing
(`none`) or empty, in which case `if (!label) return;` leaves the state
unchanged; otherwise the membership toggle runs. -/
def handleLegendClick (current : List String) (label : Option String) :
    List String :=
  match label with
  | none => current
  | some l => if l = "" then current else toggleHidden current l

/-- The pruning effect body (DashboardPage.jsx lines 57-61):
`current.filter((category) => fixedCategories.some((item) => item.category === category))`. -/
def pruneHidden (current : List String) (cats : List CategoryTotal) :
    List String :=
  current.filter fun category => cats.any fun item => item.category = category

/-- The three derived values DashboardPage.jsx computes from a summary and the
hidden-category state during one render. -/
structure DerivedValues where
  visibleCats : List CategoryTotal
  visibleFixed : ℚ
  visibleFree : ℚ
deriving DecidableEq

/-- Values derived in a single render pass of DashboardPage.jsx. -/
def deriveValues (s : Summary) (hidden : List String) : DerivedValues :=
  ⟨visibleCategoryTotals (fixedCategories s) hidden,
   visibleFixedTotal s hidden,
   visibleFreeAfterFixed s hidden⟩

/-- The hidden-category lists in effect at each successive render after a new
summary is ingested (`setSummary`).  React runs the pruning `useEffect`
(DashboardPage.jsx lines 57-61) only after the render that first derives from
the new summary is committed, so the first render still uses the previous
hidden list; if pruning changes it, a second render follows with the pruned
list. -/
def ingestRenders (s : Summary) (oldHidden : List String) :
    List (List String) :=
  let pruned := pruneHidden oldHidden (fixedCategories s)
  if pruned = oldHidden then [oldHidden] else [oldHidden, pruned]

/-- Example summary with two categories and only an externally supplied
`freeAfterFixed`, used to instantiate claim theorems. -/
def sampleSummaryFree : Summary :=
  ⟨some [⟨"A", 100, none⟩, ⟨"B", 50, none⟩], none, none, none, none, none,
   some 200⟩

/-- Example summary whose category list is empty while an effective fixed
total is supplied. -/
def sampleSummaryEmpty : Summary :=
  ⟨some [], some 75, none, none, none, none, some 20⟩

/-- Example summary with one category and no income fields, used for the
pruning claims. -/
def sampleSummaryOneCat : Summary :=
  ⟨some [⟨"A", 100, none⟩], none, none, none, none, none, none⟩

/-- Example summary with no active-income override but a numeric aggregate
`monthlyNetIncome`. -/
def sampleSummaryMonthly : Summary :=
  ⟨some [⟨"A", 100, none⟩], none, none, none, none, some 500, none⟩

theorem mem_toggleHidden_toggleHidden (current : List String)
    (label x : String) :
    x ∈ toggleHidden (toggleHidden current label) label ↔ x ∈ current := by
  by_cases h : label ∈ current
  · by_cases hx : x = label
    · subst hx; simp [toggleHidden, h]
    · simp [toggleHidden, h, hx]
  · simp [toggleHidden, h]
    intro y hy
    exact h (hy ▸ y)

theorem mem_handleLegendClick_twice (current : List String)
    (label : Option String) (x : String) :
    x ∈ handleLegendClick (handleLegendClick current label) label ↔
      x ∈ current := by
  match label with
  | none => exact Iff.rfl
  | some l =>
    by_cases hl : l = ""
    · simp [handleLegendClick, hl]
    · simp only [handleLegendClick, if_neg hl]
      exact mem_toggleHidden_toggleHidden current l x

theorem visibleCategoryTotals_congr (cats : List CategoryTotal)
    (h1 h2 : List String) (h : ∀ x, x ∈ h1 ↔ x ∈ h2) :
    visibleCategoryTotals cats h1 = visibleCategoryTotals cats h2 := by
  unfold visibleCategoryTotals
  apply List.filter_congr
  intro item _
  by_cases hm : item.category ∈ h1
  · simp [hm, (h item.category).mp hm]
  · have hm2 : item.category ∉ h2 := fun hh => hm ((h item.category).mpr hh)
    simp [hm, hm2]

theorem visibleCategoryTotals_pruneHidden (cats : List CategoryTotal)
    (hidden : List String) :
    visibleCategoryTotals cats (pruneHidden hidden cats) =
      visibleCategoryTotals cats hidden := by
  unfold visibleCategoryTotals pruneHidden
  apply List.filter_congr
  intro item hitem
  by_cases hm : item.category ∈ hidden
  · have hmem : item.category ∈ hidden.filter
        (fun category => cats.any fun i => i.category = category) := by
      simp [hm]
      exact ⟨item, hitem, rfl⟩
    simp [hmem, hm]
  · have hno : item.category ∉ hidden.filter
        (fun category => cats.any fun i => i.category = category) := by
      simp [hm]
    simp [hno, hm]

theorem visibleFixedTotal_pruneHidden (s : Summary) (hidden : List String) :
    visibleFixedTotal s (pruneHidden hidden (fixedCategories s)) =
      visibleFixedTotal s hidden := by
  unfold visibleFixedTotal
  rw [visibleCategoryTotals_pruneHidden]

theorem visibleFreeAfterFixed_pruneHidden (s : Summary)
    (hidden : List String) :
    visibleFreeAfterFixed s (pruneHidden hidden (fixedCategories s)) =
      visibleFreeAfterFixed s hidden := by
  unfold visibleFreeAfterFixed
  rw [visibleFixedTotal_pruneHidden]

theorem deriveValues_pruneHidden (s : Summary) (hidden : List String) :
    deriveValues s (pruneHidden hidden (fixedCategories s)) =
      deriveValues s hidden := by
  unfold deriveValues
  rw [visibleCategoryTotals_pruneHidden, visibleFixedTotal_pruneHidden,
    visibleFreeAfterFixed_pruneHidden]

/-- C1: with a non-empty category list, `visibleFreeAfterFixed` is
`activeMonthlyNetIncome − visibleFixedTotal` when the income is known, and is
the externally supplied `freeAfterFixed` unchanged when the income is unknown
— in particular it stays at the supplied value (e.g. 200) after any
legend-click toggle of a category, even though `visibleFixedTotal` changes. -/
theorem c1_visibleFreeAfterFixed (s : Summary) (hidden : List String)
    (hne : (fixedCategories s).length ≠ 0) :
    (∀ inc, activeMonthlyNetIncome s = some inc →
      visibleFreeAfterFixed s hidden = inc - visibleFixedTotal s hidden) ∧
    (∀ f, activeMonthlyNetIncome s = none → s.freeAfterFixed = some f →
      visibleFreeAfterFixed s hidden = f ∧
      ∀ label, visibleFreeAfterFixed s (handleLegendClick hidden label) = f) := by
  constructor
  · intro inc hinc
    simp [visibleFreeAfterFixed, hne, hinc]
  · intro f hnone hf
    constructor
    · simp [visibleFreeAfterFixed, hne, hnone, hf]
    · intro label
      simp [visibleFreeAfterFixed, hne, hnone, hf]

/-- Witness for C1: on a concrete summary with categories A and B, unknown
income and supplied `freeAfterFixed = 200`, hiding category A leaves
`visibleFreeAfterFixed` at 200. -/
theorem c1_visibleFreeAfterFixed_witness :
    (fixedCategories sampleSummaryFree).length ≠ 0 ∧
    visibleFreeAfterFixed sampleSummaryFree
      (handleLegendClick [] (some "A")) = 200 :=
  ⟨by decide,
   (((c1_visibleFreeAfterFixed sampleSummaryFree [] (by decide)).2)
     200 rfl rfl).2 (some "A")⟩

/-- C2: applying the legend-click toggle twice with the same label restores
the hidden set's membership, so `visibleCategoryTotals` (and hence every
value derived from it) is unchanged by the double toggle. -/
theorem c2_double_toggle (cats : List CategoryTotal) (current : List String)
    (label : Option String) :
    (∀ x, x ∈ handleLegendClick (handleLegendClick current label) label ↔
      x ∈ current) ∧
    visibleCategoryTotals cats
        (handleLegendClick (handleLegendClick current label) label) =
      visibleCategoryTotals cats current :=
  ⟨mem_handleLegendClick_twice current label,
   visibleCategoryTotals_congr cats _ _
     (mem_handleLegendClick_twice current label)⟩

/-- C3 counterexample: when the summary with single category A arrives while
the stale label B is hidden, the first render after ingestion still derives
with the unpruned hidden set, so the invariant
`HiddenCategorySet ⊆ current category labels` does not hold at every
derivation. -/
theorem c3_pruning_counterexample :
    ¬ ∀ r ∈ ingestRenders sampleSummaryOneCat ["B"], ∀ c ∈ r,
        ((fixedCategories sampleSummaryOneCat).any
          fun item => item.category = c) = true := by
  decide

/-- C3 (amended): the pruning effect runs only after the render that first
derives from the new summary, but stale hidden labels do not change any of
the three derived values — every render's derivation equals the derivation
from the pruned set — the pruned set contains only labels of present
categories, and the final state after ingestion is the pruned set. -/
theorem c3_pruning_amended (s : Summary) (hidden : List String) :
    (∀ r ∈ ingestRenders s hidden,
      deriveValues s r = deriveValues s (pruneHidden hidden (fixedCategories s))) ∧
    (∀ c ∈ pruneHidden hidden (fixedCategories s),
      ((fixedCategories s).any fun item => item.category = c) = true) ∧
    (ingestRenders s hidden).getLast? =
      some (pruneHidden hidden (fixedCategories s)) := by
  refine ⟨?_, ?_, ?_⟩
  · intro r hr
    unfold ingestRenders at hr
    by_cases hp : pruneHidden hidden (fixedCategories s) = hidden
    · simp [hp] at hr
      rw [hr, hp]
    · simp [hp] at hr
      rcases hr with hr | hr
      · rw [hr, deriveValues_pruneHidden]
      · rw [hr]
  · intro c hc
    unfold pruneHidden at hc
    simpa using (List.mem_filter.mp hc).2
  · unfold ingestRenders
    by_cases hp : pruneHidden hidden (fixedCategories s) = hidden
    · simp [hp]
    · simp [hp]

/-- Witness for C3 (amended): at the concrete stale state, the first render's
derivation equals the derivation from the pruned set. -/
theorem c3_pruning_amended_witness :
    (["B"] ∈ ingestRenders sampleSummaryOneCat ["B"]) ∧
    deriveValues sampleSummaryOneCat ["B"] =
      deriveValues sampleSummaryOneCat
        (pruneHidden ["B"] (fixedCategories sampleSummaryOneCat)) :=
  ⟨by decide,
   (c3_pruning_amended sampleSummaryOneCat ["B"]).1 ["B"] (by decide)⟩

/-- C4: with an empty category list, `visibleFixedTotal` is the externally
supplied default fixed total unchanged, for every hidden set; with a
non-empty list it is the sum of the totals of `visibleCategoryTotals`. -/
theorem c4_visibleFixedTotal (s : Summary) (hidden hidden' : List String) :
    (fixedCategories s = [] →
      visibleFixedTotal s hidden = defaultFixedTotal s ∧
      visibleFixedTotal s hidden = visibleFixedTotal s hidden' ∧
      ∀ t, s.effectiveFixedExpenseTotal = some t →
        visibleFixedTotal s hidden = t) ∧
    (fixedCategories s ≠ [] →
      visibleFixedTotal s hidden =
        ((visibleCategoryTotals (fixedCategories s) hidden).map
          fun item => item.total).sum) := by
  constructor
  · intro hempty
    refine ⟨?_, ?_, ?_⟩
    · simp [visibleFixedTotal, hempty]
    · simp [visibleFixedTotal, hempty]
    · intro t ht
      simp [visibleFixedTotal, hempty, defaultFixedTotal, ht]
  · intro hne
    have hlen : (fixedCategories s).length ≠ 0 := by
      simpa [List.length_eq_zero] using hne
    simp [visibleFixedTotal, hlen]

/-- Witness for C4: a summary with an empty category list and supplied
effective total 75 yields `visibleFixedTotal = 75` even with a non-empty
hidden set. -/
theorem c4_visibleFixedTotal_witness :
    fixedCategories sampleSummaryEmpty = [] ∧
    visibleFixedTotal sampleSummaryEmpty ["X"] = 75 :=
  ⟨by decide,
   ((c4_visibleFixedTotal sampleSummaryEmpty ["X"] []).1 rfl).2.2 75 rfl⟩

/-- C7: `activeMonthlyNetIncome` resolves by ordered fallback — the
explicitly supplied override when numeric, else the aggregate
`monthlyNetIncome` when numeric, else absent — and is a total function
(never throws). -/
theorem c7_activeMonthlyNetIncome (s : Summary) :
    (∀ a, s.activeMonthlyNetIncome = some a →
      activeMonthlyNetIncome s = some a) ∧
    (∀ m, s.activeMonthlyNetIncome = none → s.monthlyNetIncome = some m →
      activeMonthlyNetIncome s = some m) ∧
    (s.activeMonthlyNetIncome = none → s.monthlyNetIncome = none →
      activeMonthlyNetIncome s = none) := by
  refine ⟨?_, ?_, ?_⟩
  · intro a ha
    simp [activeMonthlyNetIncome, ha]
  · intro m hnone hm
    simp [activeMonthlyNetIncome, hnone, hm]
  · intro hnone hm
    simp [activeMonthlyNetIncome, hnone, hm]

/-- Witness for C7: with no override and aggregate income 500, the resolver
returns 500. -/
theorem c7_activeMonthlyNetIncome_witness :
    activeMonthlyNetIncome sampleSummaryMonthly = some 500 :=
  (c7_activeMonthlyNetIncome sampleSummaryMonthly).2.1 500 rfl rfl

/-- A calendar date as the JS `Date` accessors expose it: `year`
(`getFullYear`), zero-based `month` 0-11 (`getMonth`) and `day` 1-31
(`getDate`). -/
structure JsDate where
  year : ℤ
  month : ℕ
  day : ℕ
deriving DecidableEq

/-- Gregorian leap-year rule, as used by JS `Date` normalization. -/
def isLeapYear (y : ℤ) : Bool :=
  (y % 4 = 0 && !(y % 100 = 0)) || y % 400 = 0

/-- Number of days of zero-based month `m` of year `y`. -/
def daysInMonth (y : ℤ) (m : ℕ) : ℕ :=
  if m = 1 then (if isLeapYear y then 29 else 28)
  else if m = 3 ∨ m = 5 ∨ m = 8 ∨ m = 10 then 30
  else 31

/-- JS `Date` day-of-month normalization: a day that exceeds the length of
its month rolls over into the following month.  For days 1-31 one roll
suffices since every month has at least 28 days. -/
def rollDay (y : ℤ) (m : ℕ) (d : ℕ) : JsDate :=
  if d ≤ daysInMonth y m then ⟨y, m, d⟩
  else if m = 11 then ⟨y + 1, 0, d - daysInMonth y m⟩
  else ⟨y, m + 1, d - daysInMonth y m⟩

/-- JS `date.setMonth(m)` for `m ≥ 0`: month overflow past 11 moves into
later years, the day of month is kept and then normalized. -/
def setMonth (date : JsDate) (m : ℕ) : JsDate :=
  rollDay (date.year + (m / 12 : ℕ)) (m % 12) date.day

/-- One entry of `monthlyForecast` (DashboardPage.jsx lines 170-174); the
localized label string is determined by its month and year, modelled here as
the `labelYear`/`labelMonth` pair. -/
structure ForecastPoint where
  labelYear : ℤ
  labelMonth : ℕ
  fixedCosts : ℚ
  availableAfterFixed : ℚ
deriving DecidableEq

/-- `monthlyForecast` (DashboardPage.jsx lines 161-177):
`Array.from({length: 12}, (_, index) => ...)` where each entry takes a fresh
`new Date()` (= `today`), calls `date.setMonth(date.getMonth() + index)`, and
carries the current `visibleFixedTotal` and `visibleFreeAfterFixed`. -/
def monthlyForecast (today : JsDate) (vft vfaf : ℚ) : List ForecastPoint :=
  (List.range 12).map fun index =>
    let date := setMonth today (today.month + index)
    ⟨date.year, date.month, vft, vfaf⟩

theorem le_daysInMonth (y : ℤ) (m : ℕ) : 28 ≤ daysInMonth y m := by
  unfold daysInMonth
  split_ifs <;> omega

/-- C6 counterexample: on 2026-01-31 the forecast is not one point per
consecutive calendar month — `setMonth` rolls the kept day-of-month 31 past
the end of the shorter months, so the labels of indices 1 and 2 are both
March 2026 instead of February and March. -/
theorem c6_forecast_counterexample :
    ¬ ∀ i : Fin 12,
      ((monthlyForecast ⟨2026, 0, 31⟩ 0 0).getD i ⟨0, 0, 0, 0⟩).labelYear * 12 +
        (((monthlyForecast ⟨2026, 0, 31⟩ 0 0).getD i ⟨0, 0, 0, 0⟩).labelMonth : ℤ) =
      2026 * 12 + (i : ℤ) := by
  decide

/-- C6 (amended): the forecast always — for every date — has exactly 12
points, and every point carries the current `visibleFixedTotal` and
`visibleFreeAfterFixed` unchanged; whenever the current day of month is at
most 28 the points are in addition one per consecutive calendar month
beginning at the current month (on later days of month JS `setMonth` day
overflow can repeat or skip a month label). -/
theorem c6_forecast (today : JsDate) (vft vfaf : ℚ) :
    (monthlyForecast today vft vfaf).length = 12 ∧
    (∀ p ∈ monthlyForecast today vft vfaf,
      p.fixedCosts = vft ∧ p.availableAfterFixed = vfaf) ∧
    (today.day ≤ 28 →
      ∀ i : Fin 12,
        ((monthlyForecast today vft vfaf).getD i ⟨0, 0, 0, 0⟩).labelYear * 12 +
          (((monthlyForecast today vft vfaf).getD i ⟨0, 0, 0, 0⟩).labelMonth : ℤ) =
        today.year * 12 + today.month + (i : ℤ)) := by
  refine ⟨?_, ?_, ?_⟩
  · simp [monthlyForecast]
  · intro p hp
    simp [monthlyForecast] at hp
    obtain ⟨i, hi, hp⟩ := hp
    rw [← hp]
    exact ⟨rfl, rfl⟩
  · intro hd28 i
    have hi : (i : ℕ) < (monthlyForecast today vft vfaf).length := by
      simp [monthlyForecast]
    rw [List.getD_eq_getElem _ _ hi]
    have hroll : setMonth today (today.month + (i : ℕ)) =
        ⟨today.year + ((today.month + (i : ℕ)) / 12 : ℕ),
         (today.month + (i : ℕ)) % 12, today.day⟩ := by
      unfold setMonth rollDay
      rw [if_pos (le_trans hd28 (le_daysInMonth _ _))]
    simp [monthlyForecast, hroll]
    omega

/-- Witness for C6 (amended): on 2026-01-15 (day 15 ≤ 28) point 1 of the
forecast is labeled February 2026, the month right after the current one. -/
theorem c6_forecast_witness :
    (⟨2026, 0, 15⟩ : JsDate).day ≤ 28 ∧
    ((monthlyForecast ⟨2026, 0, 15⟩ 100 50).getD (1 : Fin 12)
        ⟨0, 0, 0, 0⟩).labelYear * 12 +
      (((monthlyForecast ⟨2026, 0, 15⟩ 100 50).getD (1 : Fin 12)
        ⟨0, 0, 0, 0⟩).labelMonth : ℤ) =
      2026 * 12 + 0 + ((1 : Fin 12) : ℤ) :=
  ⟨by decide, (c6_forecast ⟨2026, 0, 15⟩ 100 50).2.2 (by decide) 1⟩

end Dashboard

/-- Modelled from the spec: the FixedExpense record (§3 data model) — the
record store and CRUD layer are not part of the sources under src/.
`amountPerMonth` is `none` when missing or non-finite; `bindingEndDate` is a
time measured in days, `none` when absent or unparseable. -/
structure FixedExpense where
  id : ℕ
  name : String
  category : String
  level : String
  amountPerMonth : Option ℚ
  bindingEndDate : Option ℚ
deriving DecidableEq

/-- Modelled from the spec: a monetary field is valid when non-negative and
finite (§3); `none` models a missing or non-finite value and is invalid. -/
def validAmount : Option ℚ → Option ℚ
  | none => none
  | some a => if 0 ≤ a then some a else none

/-- Modelled from the spec: the sentinel bucket label for an empty category
(§4.1 leaves the exact label a policy choice). -/
def categoryKey (e : FixedExpense) : String :=
  if e.category = "" then "Uncategorized" else e.category

/-- Modelled from the spec: the sentinel bucket label for an empty level. -/
def levelKey (e : FixedExpense) : String :=
  if e.level = "" then "Unspecified" else e.level

/-- Modelled from the spec: add an amount to the running total of its bucket,
keeping first-seen insertion order (§4.1); a new key is appended at the end. -/
def addToBucket (b : List (String × ℚ)) (k : String) (a : ℚ) :
    List (String × ℚ) :=
  match b with
  | [] => [(k, a)]
  | (k0, t) :: rest =>
    if k0 = k then (k0, t + a) :: rest else (k0, t) :: addToBucket rest k a

/-- Modelled from the spec: one aggregation step of the ExpenseAggregator
(§4.1) — an expense with a valid amount is added to the running total of its
category bucket and of its level bucket; an invalid amount is skipped. -/
def aggregateStep (acc : List (String × ℚ) × List (String × ℚ))
    (e : FixedExpense) : List (String × ℚ) × List (String × ℚ) :=
  match validAmount e.amountPerMonth with
  | none => acc
  | some a =>
    (addToBucket acc.1 (categoryKey e) a, addToBucket acc.2 (levelKey e) a)

/-- Modelled from the spec: the ExpenseAggregator (§4.1) is server-side code
not present under src/ (the dashboard only reads its output); it folds the
expense sequence into category totals and level totals. -/
def aggregateExpenses (es : List FixedExpense) :
    List (String × ℚ) × List (String × ℚ) :=
  es.foldl aggregateStep ([], [])

/-- Sum of the totals of a bucket list. -/
def sumSnd (l : List (String × ℚ)) : ℚ := (l.map Prod.snd).sum

/-- Sum of the totals recorded under key `k` in a bucket list. -/
def keySum (l : List (String × ℚ)) (k : String) : ℚ :=
  ((l.filter fun p => p.1 = k).map Prod.snd).sum

/-- Sum of the valid `amountPerMonth` values of an expense sequence. -/
def validAmountSum (es : List FixedExpense) : ℚ :=
  (es.map fun e => (validAmount e.amountPerMonth).getD 0).sum

/-- Sum of the valid amounts of the expenses whose category bucket is `k`. -/
def categoryKeySum (es : List FixedExpense) (k : String) : ℚ :=
  ((es.filter fun e => categoryKey e = k).map
    fun e => (validAmount e.amountPerMonth).getD 0).sum

/-- Sum of the valid amounts of the expenses whose level bucket is `k`. -/
def levelKeySum (es : List FixedExpense) (k : String) : ℚ :=
  ((es.filter fun e => levelKey e = k).map
    fun e => (validAmount e.amountPerMonth).getD 0).sum

theorem sumSnd_addToBucket (b : List (String × ℚ)) (k : String) (a : ℚ) :
    sumSnd (addToBucket b k a) = sumSnd b + a := by
  induction b with
  | nil => simp [addToBucket, sumSnd]
  | cons p rest ih =>
    obtain ⟨k0, t⟩ := p
    unfold addToBucket
    by_cases h : k0 = k
    · simp [h, sumSnd]
      ring
    · simp only [if_neg h, sumSnd, List.map_cons, List.sum_cons] at ih ⊢
      rw [ih]
      ring

theorem keySum_addToBucket (b : List (String × ℚ)) (k : String) (a : ℚ)
    (k' : String) :
    keySum (addToBucket b k a) k' = keySum b k' + (if k' = k then a else 0) := by
  induction b with
  | nil =>
    unfold addToBucket keySum
    by_cases h : k' = k
    · subst h; simp
    · simp [List.filter_cons, Ne.symm h, h]
  | cons p rest ih =>
    obtain ⟨k0, t⟩ := p
    unfold addToBucket
    by_cases h : k0 = k
    · subst h
      unfold keySum
      by_cases h' : k' = k0
      · subst h'
        simp [List.filter_cons]
        ring
      · simp [List.filter_cons, Ne.symm h', h']
    · rw [if_neg h]
      unfold keySum at ih ⊢
      by_cases h' : k0 = k'
      · subst h'
        have hne : ¬ k0 = k := h
        simp [List.filter_cons] at ih ⊢
        rw [ih]
        simp [hne]
      · simp only [List.filter_cons] at ih ⊢
        simp [h'] at ih ⊢
        rw [ih]

theorem keys_addToBucket (b : List (String × ℚ)) (k : String) (a : ℚ) :
    (addToBucket b k a).map Prod.fst =
      if (b.map Prod.fst).contains k then b.map Prod.fst
      else b.map Prod.fst ++ [k] := by
  induction b with
  | nil => simp [addToBucket]
  | cons p rest ih =>
    obtain ⟨k0, t⟩ := p
    unfold addToBucket
    by_cases h : k0 = k
    · simp [h]
    · have hck : ((k0, t) :: rest).map Prod.fst = k0 :: rest.map Prod.fst := rfl
      rw [if_neg h, List.map_cons, ih, hck]
      have hc2 : (k0 :: rest.map Prod.fst).contains k =
          (rest.map Prod.fst).contains k := by
        simp [List.contains_cons, Ne.symm h]
      rw [hc2]
      by_cases hc : (rest.map Prod.fst).contains k
      · rw [if_pos hc, if_pos hc]
      · rw [if_neg hc, if_neg hc, List.cons_append]

theorem nodup_keys_addToBucket (b : List (String × ℚ)) (k : String) (a : ℚ)
    (h : (b.map Prod.fst).Nodup) :
    ((addToBucket b k a).map Prod.fst).Nodup := by
  rw [keys_addToBucket]
  by_cases hc : (b.map Prod.fst).contains k
  · rw [if_pos hc]; exact h
  · rw [if_neg hc]
    have hk : k ∉ b.map Prod.fst := by simpa using hc
    simp [List.nodup_append, h, hk]

theorem validAmountSum_cons (e : FixedExpense) (es : List FixedExpense) :
    validAmountSum (e :: es) =
      (validAmount e.amountPerMonth).getD 0 + validAmountSum es := by
  simp [validAmountSum]

theorem categoryKeySum_cons (e : FixedExpense) (es : List FixedExpense)
    (k : String) :
    categoryKeySum (e :: es) k =
      (if categoryKey e = k then (validAmount e.amountPerMonth).getD 0 else 0) +
        categoryKeySum es k := by
  unfold categoryKeySum
  rw [List.filter_cons]
  by_cases h : categoryKey e = k
  · simp [h]
  · simp [h]

theorem levelKeySum_cons (e : FixedExpense) (es : List FixedExpense)
    (k : String) :
    levelKeySum (e :: es) k =
      (if levelKey e = k then (validAmount e.amountPerMonth).getD 0 else 0) +
        levelKeySum es k := by
  unfold levelKeySum
  rw [List.filter_cons]
  by_cases h : levelKey e = k
  · simp [h]
  · simp [h]

theorem aggregate_foldl (es : List FixedExpense) :
    ∀ acc : List (String × ℚ) × List (String × ℚ),
      sumSnd (es.foldl aggregateStep acc).1 = sumSnd acc.1 + validAmountSum es ∧
      sumSnd (es.foldl aggregateStep acc).2 = sumSnd acc.2 + validAmountSum es ∧
      (∀ k, keySum (es.foldl aggregateStep acc).1 k =
        keySum acc.1 k + categoryKeySum es k) ∧
      (∀ k, keySum (es.foldl aggregateStep acc).2 k =
        keySum acc.2 k + levelKeySum es k) := by
  induction es with
  | nil =>
    intro acc
    simp [validAmountSum, categoryKeySum, levelKeySum]
  | cons e rest ih =>
    intro acc
    rw [List.foldl_cons]
    obtain ⟨ih1, ih2, ih3, ih4⟩ := ih (aggregateStep acc e)
    refine ⟨?_, ?_, ?_, ?_⟩
    · rw [ih1, validAmountSum_cons]
      unfold aggregateStep
      cases hv : validAmount e.amountPerMonth with
      | none => simp
      | some a => simp [sumSnd_addToBucket]; ring
    · rw [ih2, validAmountSum_cons]
      unfold aggregateStep
      cases hv : validAmount e.amountPerMonth with
      | none => simp
      | some a => simp [sumSnd_addToBucket]; ring
    · intro k
      rw [ih3 k, categoryKeySum_cons]
      unfold aggregateStep
      cases hv : validAmount e.amountPerMonth with
      | none => simp
      | some a =>
        simp [keySum_addToBucket]
        by_cases hk : categoryKey e = k
        · simp [hk]; ring
        · simp [hk]
          intro hh
          exact absurd hh.symm hk
    · intro k
      rw [ih4 k, levelKeySum_cons]
      unfold aggregateStep
      cases hv : validAmount e.amountPerMonth with
      | none => simp
      | some a =>
        simp [keySum_addToBucket]
        by_cases hk : levelKey e = k
        · simp [hk]; ring
        · simp [hk]
          intro hh
          exact absurd hh.symm hk

theorem aggregate_foldl_nodup (es : List FixedExpense) :
    ∀ acc : List (String × ℚ) × List (String × ℚ),
      (acc.1.map Prod.fst).Nodup → (acc.2.map Prod.fst).Nodup →
      ((es.foldl aggregateStep acc).1.map Prod.fst).Nodup ∧
      ((es.foldl aggregateStep acc).2.map Prod.fst).Nodup := by
  induction es with
  | nil => intro acc h1 h2; exact ⟨h1, h2⟩
  | cons e rest ih =>
    intro acc h1 h2
    rw [List.foldl_cons]
    apply ih
    · cases hv : validAmount e.amountPerMonth with
      | none => simp only [aggregateStep, hv]; exact h1
      | some a =>
        simp only [aggregateStep, hv]
        exact nodup_keys_addToBucket _ _ _ h1
    · cases hv : validAmount e.amountPerMonth with
      | none => simp only [aggregateStep, hv]; exact h2
      | some a =>
        simp only [aggregateStep, hv]
        exact nodup_keys_addToBucket _ _ _ h2

/-- C5: the aggregation satisfies
Σ category totals = Σ level totals = Σ valid amountPerMonth (invalid amounts
excluded from all sums), and every valid expense contributes to exactly one
category total and one level total: each bucket key appears once, and the
total under any key equals the sum of the valid amounts of exactly the
expenses bucketed under that key. -/
theorem c5_aggregation_sums (es : List FixedExpense) :
    sumSnd (aggregateExpenses es).1 = validAmountSum es ∧
    sumSnd (aggregateExpenses es).2 = validAmountSum es ∧
    (∀ k, keySum (aggregateExpenses es).1 k = categoryKeySum es k) ∧
    (∀ k, keySum (aggregateExpenses es).2 k = levelKeySum es k) ∧
    ((aggregateExpenses es).1.map Prod.fst).Nodup ∧
    ((aggregateExpenses es).2.map Prod.fst).Nodup := by
  obtain ⟨h1, h2, h3, h4⟩ := aggregate_foldl es ([], [])
  obtain ⟨h5, h6⟩ := aggregate_foldl_nodup es ([], []) (by simp) (by simp)
  unfold aggregateExpenses
  refine ⟨?_, ?_, ?_, ?_, h5, h6⟩
  · simpa [sumSnd] using h1
  · simpa [sumSnd] using h2
  · intro k
    simpa [keySum] using h3 k
  · intro k
    simpa [keySum] using h4 k

/-- Modelled from the spec: the SavingsGoal record (§3) — the savings
utilities (`src/client/src/utils/savings.js`) are not part of the sources
under src/, only their call sites are.  A `none` amount models a missing,
non-numeric or non-finite field. -/
structure SavingsGoal where
  id : ℕ
  name : String
  targetAmount : Option ℚ
  savedAmount : Option ℚ
deriving DecidableEq

/-- The savings-progress statistics object exposed to the dashboard. -/
structure SavingsStats where
  goalCount : ℕ
  totalSaved : ℚ
  totalTarget : ℚ
  avgProgress : ℤ
deriving DecidableEq

/-- A valid (non-negative, finite) amount, or `0` for an invalid one
(excluded from sums). -/
def validOrZero (a : Option ℚ) : ℚ := (validAmount a).getD 0

/-- JS `Math.round`: round half up, `⌊x + 1/2⌋`. -/
def jsRound (q : ℚ) : ℤ := ⌊q + 1/2⌋

/-- Modelled from the spec: `summarizeSavingsGoals` (§4.6) — goalCount is the
number of goals, totalSaved/totalTarget sum the valid amounts, and
avgProgress is 0 when there are no goals or the target sum is 0 (so the
division is never performed on a zero target and can produce neither NaN nor
Infinity), else `round(100 × totalSaved / totalTarget)`, not clamped. -/
def summarizeSavingsGoals (goals : List SavingsGoal) : SavingsStats :=
  let totalSaved := (goals.map fun g => validOrZero g.savedAmount).sum
  let totalTarget := (goals.map fun g => validOrZero g.targetAmount).sum
  ⟨goals.length, totalSaved, totalTarget,
   if goals.length = 0 ∨ totalTarget = 0 then 0
   else jsRound (100 * totalSaved / totalTarget)⟩

/-- C8: the savings summarizer returns the goal count, the sums of valid
saved and target amounts, and an integer avgProgress that is 0 exactly when
guarded (no goals or zero target) and `round(100·saved/target)` otherwise;
on the spec's examples the two goals give 80/170 and avgProgress 47, the
empty list gives 0, and an over-saved goal yields an unclamped 300. -/
theorem c8_summarizeSavingsGoals (goals : List SavingsGoal) :
    ((summarizeSavingsGoals goals).goalCount = goals.length ∧
     (summarizeSavingsGoals goals).totalSaved =
       (goals.map fun g => validOrZero g.savedAmount).sum ∧
     (summarizeSavingsGoals goals).totalTarget =
       (goals.map fun g => validOrZero g.targetAmount).sum ∧
     (summarizeSavingsGoals goals).avgProgress =
       (if goals.length = 0 ∨
           (goals.map fun g => validOrZero g.targetAmount).sum = 0 then 0
        else jsRound (100 * (goals.map fun g => validOrZero g.savedAmount).sum /
          (goals.map fun g => validOrZero g.targetAmount).sum))) ∧
    summarizeSavingsGoals
        [⟨1, "a", some 100, some 50⟩, ⟨2, "b", some 70, some 30⟩] =
      ⟨2, 80, 170, 47⟩ ∧
    (summarizeSavingsGoals ([] : List SavingsGoal)).avgProgress = 0 ∧
    (summarizeSavingsGoals [⟨1, "c", some 100, some 300⟩]).avgProgress = 300 := by
  refine ⟨⟨rfl, rfl, rfl, rfl⟩, ?_, ?_, ?_⟩
  · norm_num [summarizeSavingsGoals, validOrZero, validAmount, jsRound,
      SavingsStats.mk.injEq]
  · norm_num [summarizeSavingsGoals]
  · norm_num [summarizeSavingsGoals, validOrZero, validAmount, jsRound]

/-- Modelled from the spec: the BindingExpiration record (§3) — the
BindingExpirationTracker is server-side code not present under src/, only
its rendered output is.  Times are measured in days. -/
structure BindingExpiration where
  id : ℕ
  name : String
  bindingEndDate : ℚ
  daysLeft : ℤ
  amountPerMonth : Option ℚ
deriving DecidableEq

/-- Modelled from the spec: `daysLeft = floor((bindingEndDate − now) in whole
days)` (§4.2). -/
def daysLeftOf (now endDate : ℚ) : ℤ := ⌊endDate - now⌋

/-- Modelled from the spec: the tracked window, `windowDays = 90` (§3). -/
def windowDays : ℤ := 90

/-- Modelled from the spec: the unsorted candidates of the
BindingExpirationTracker (§4.2) — expenses with a parseable `bindingEndDate`
(`some`) whose `daysLeft` lies in `[0, window]`; records outside the window
or with an unparseable date are excluded, not clamped and not errors. -/
def bindingCandidates (es : List FixedExpense) (now : ℚ) (window : ℤ) :
    List BindingExpiration :=
  es.filterMap fun e =>
    match e.bindingEndDate with
    | none => none
    | some d =>
      if 0 ≤ daysLeftOf now d ∧ daysLeftOf now d ≤ window then
        some ⟨e.id, e.name, d, daysLeftOf now d, e.amountPerMonth⟩
      else none

/-- The tracker's sort order: ascending by `daysLeft`, ties broken by `name`
in case-sensitive lexicographic order (§4.2). -/
def bindingLE (a b : BindingExpiration) : Prop :=
  a.daysLeft < b.daysLeft ∨ (a.daysLeft = b.daysLeft ∧ a.name ≤ b.name)

instance : DecidableRel bindingLE := fun a b => by
  unfold bindingLE
  infer_instance

instance : IsTotal BindingExpiration bindingLE :=
  ⟨fun a b => by
    unfold bindingLE
    rcases lt_trichotomy a.daysLeft b.daysLeft with h | h | h
    · exact Or.inl (Or.inl h)
    · rcases le_total a.name b.name with hn | hn
      · exact Or.inl (Or.inr ⟨h, hn⟩)
      · exact Or.inr (Or.inr ⟨h.symm, hn⟩)
    · exact Or.inr (Or.inl h)⟩

instance : IsTrans BindingExpiration bindingLE :=
  ⟨fun a b c hab hbc => by
    unfold bindingLE at hab hbc ⊢
    rcases hab with h1 | ⟨h1, hn1⟩
    · rcases hbc with h2 | ⟨h2, hn2⟩
      · exact Or.inl (h1.trans h2)
      · exact Or.inl (h2 ▸ h1)
    · rcases hbc with h2 | ⟨h2, hn2⟩
      · exact Or.inl (h1 ▸ h2)
      · exact Or.inr ⟨h1.trans h2, hn1.trans hn2⟩⟩

/-- Modelled from the spec: the BindingExpirationTracker (§4.2) — keep the
in-window candidates and sort them ascending by `daysLeft`, tie-break by
name. -/
def trackBindingExpirations (es : List FixedExpense) (now : ℚ) :
    List BindingExpiration :=
  List.insertionSort bindingLE (bindingCandidates es now windowDays)

/-- C9: the tracker result is a permutation of the candidate list, is sorted
by ascending `daysLeft` with case-sensitive name tie-break, and contains
exactly the records of expenses with a parseable `bindingEndDate` whose
`daysLeft` lies in `[0, 90]`. -/
theorem c9_bindingExpirations (es : List FixedExpense) (now : ℚ) :
    (trackBindingExpirations es now).Perm (bindingCandidates es now windowDays) ∧
    List.Sorted bindingLE (trackBindingExpirations es now) ∧
    (∀ b, b ∈ trackBindingExpirations es now ↔
      ∃ e ∈ es, ∃ d, e.bindingEndDate = some d ∧
        0 ≤ daysLeftOf now d ∧ daysLeftOf now d ≤ 90 ∧
        b = ⟨e.id, e.name, d, daysLeftOf now d, e.amountPerMonth⟩) := by
  refine ⟨List.perm_insertionSort bindingLE _,
    List.sorted_insertionSort bindingLE _, ?_⟩
  intro b
  unfold trackBindingExpirations
  rw [(List.perm_insertionSort bindingLE
    (bindingCandidates es now windowDays)).mem_iff]
  unfold bindingCandidates
  rw [List.mem_filterMap]
  constructor
  · rintro ⟨e, he, hfe⟩
    cases hd : e.bindingEndDate with
    | none => rw [hd] at hfe; cases hfe
    | some d =>
      rw [hd] at hfe
      dsimp only at hfe
      by_cases hcond : 0 ≤ daysLeftOf now d ∧ daysLeftOf now d ≤ windowDays
      · rw [if_pos hcond] at hfe
        refine ⟨e, he, d, hd, hcond.1, ?_, ?_⟩
        · have h2 := hcond.2
          unfold windowDays at h2
          exact h2
        · exact (Option.some_inj.mp hfe).symm
      · rw [if_neg hcond] at hfe
        cases hfe
  · rintro ⟨e, he, d, hend, h0, h90, hb⟩
    refine ⟨e, he, ?_⟩
    rw [hend]
    dsimp only
    rw [if_pos ⟨h0, h90⟩, hb]

namespace Settings

/-- A JS number as `Number(value)` can produce it: a finite rational, `NaN`,
or an infinity (e.g. `Number("Infinity")`).  The conversion itself is taken
as a parameter of the theorems, so they hold for every host conversion. -/
inductive JsNumber where
  | fin (q : ℚ)
  | nan
  | posInf
  | negInf
deriving DecidableEq

/-- An owner profile entry of the settings-update payload
(SettingsPage.jsx line 125). -/
structure OwnerProfile where
  name : String
  monthlyNetIncome : ℚ
deriving DecidableEq

/-- JS `String.prototype.trim` (as `name.trim()` in the source), modelled
directly on the character list: drop whitespace from both ends. -/
def jsTrim (s : String) : String :=
  ⟨((s.data.dropWhile Char.isWhitespace).reverse.dropWhile
      Char.isWhitespace).reverse⟩

/-- The rational of a finite JS number, `0` otherwise. -/
def finValue : JsNumber → ℚ
  | .fin q => q
  | _ => 0

/-- An entry fails the validation of `handleSaveOwners`
(SettingsPage.jsx lines 121-124): `Number(value)` is not finite (NaN or an
infinity) or is negative. -/
def entryInvalid (num : String → JsNumber) (p : String × String) : Bool :=
  match num p.2 with
  | .fin q => decide (q < 0)
  | _ => true

/-- The entry filters of `handleSaveOwners` (SettingsPage.jsx lines 116-118):
keep entries whose trimmed name is non-empty and whose value is not the empty
string.  State values are strings, so the `null`/`undefined` checks of the
source cannot fire in addition. -/
def keptEntries (inputs : List (String × String)) : List (String × String) :=
  (inputs.filter fun p => !(jsTrim p.1 = "")).filter fun p => !(p.2 = "")

/-- The `.map` of `handleSaveOwners` (SettingsPage.jsx lines 119-126),
evaluated left to right: the first entry whose `Number(value)` is not finite
or is negative throws (modelled as `.error` naming the entry), otherwise the
owner-profile payload is built. -/
def buildPayload (num : String → JsNumber) :
    List (String × String) → Except String (List OwnerProfile)
  | [] => .ok []
  | (name, value) :: rest =>
    match num value with
    | .fin q =>
      if q < 0 then .error (jsTrim name)
      else
        match buildPayload num rest with
        | .error e => .error e
        | .ok ps => .ok (⟨jsTrim name, q⟩ :: ps)
    | _ => .error (jsTrim name)

/-- `handleSaveOwners` (SettingsPage.jsx lines 111-141) up to the
settings-update call: `some payload` when `api.updateSettings` is issued
with that payload, `none` when the validation throws first, so that no
update call is made and no owner profile changes. -/
def handleSaveOwners (num : String → JsNumber)
    (inputs : List (String × String)) : Option (List OwnerProfile) :=
  match buildPayload num (keptEntries inputs) with
  | .ok payload => some payload
  | .error _ => none

theorem buildPayload_error (num : String → JsNumber) :
    ∀ l : List (String × String), (∃ p ∈ l, entryInvalid num p = true) →
      ∃ e, buildPayload num l = .error e := by
  intro l
  induction l with
  | nil => rintro ⟨p, hp, _⟩; cases hp
  | cons q rest ih =>
    rintro ⟨p, hp, hinv⟩
    obtain ⟨name, value⟩ := q
    rcases List.mem_cons.mp hp with rfl | hp'
    · unfold buildPayload
      unfold entryInvalid at hinv
      cases hn : num value with
      | fin r =>
        rw [hn] at hinv
        simp at hinv
        dsimp only
        rw [if_pos hinv]
        exact ⟨jsTrim name, rfl⟩
      | nan => exact ⟨jsTrim name, rfl⟩
      | posInf => exact ⟨jsTrim name, rfl⟩
      | negInf => exact ⟨jsTrim name, rfl⟩
    · unfold buildPayload
      cases hn : num value with
      | fin r =>
        dsimp only
        by_cases hq : r < 0
        · rw [if_pos hq]; exact ⟨jsTrim name, rfl⟩
        · rw [if_neg hq]
          obtain ⟨e, he⟩ := ih ⟨p, hp', hinv⟩
          rw [he]
          exact ⟨e, rfl⟩
      | nan => exact ⟨jsTrim name, rfl⟩
      | posInf => exact ⟨jsTrim name, rfl⟩
      | negInf => exact ⟨jsTrim name, rfl⟩

theorem buildPayload_ok (num : String → JsNumber) :
    ∀ (l : List (String × String)) (ps : List OwnerProfile),
      buildPayload num l = .ok ps →
      (∀ p ∈ l, entryInvalid num p = false) ∧
      ps = l.map fun p => ⟨jsTrim p.1, finValue (num p.2)⟩ := by
  intro l
  induction l with
  | nil =>
    intro ps h
    unfold buildPayload at h
    refine ⟨by simp, ?_⟩
    cases h
    rfl
  | cons q rest ih =>
    intro ps h
    obtain ⟨name, value⟩ := q
    unfold buildPayload at h
    cases hn : num value with
    | fin r =>
      rw [hn] at h
      dsimp only at h
      by_cases hq : r < 0
      · rw [if_pos hq] at h; cases h
      · rw [if_neg hq] at h
        cases hrest : buildPayload num rest with
        | error e => rw [hrest] at h; cases h
        | ok ps' =>
          rw [hrest] at h
          obtain ⟨ih1, ih2⟩ := ih ps' hrest
          cases h
          constructor
          · intro p hp
            rcases List.mem_cons.mp hp with rfl | hp'
            · simp [entryInvalid, hn, not_lt.mp hq]
            · exact ih1 p hp'
          · simp [ih2, finValue, hn]
    | nan => rw [hn] at h; cases h
    | posInf => rw [hn] at h; cases h
    | negInf => rw [hn] at h; cases h

theorem keptEntries_filter_empty (inputs : List (String × String)) :
    keptEntries (inputs.filter fun p => !(p.2 = "")) = keptEntries inputs := by
  unfold keptEntries
  rw [List.filter_filter, List.filter_filter, List.filter_filter]
  apply List.filter_congr
  intro p _
  by_cases h1 : jsTrim p.1 = ""
  · simp [h1]
  · simp [h1]

/-- A concrete host `Number` conversion used by the witness: `"500"` parses
to 500, everything else is NaN. -/
def sampleNum : String → JsNumber := fun s =>
  if s = "500" then .fin 500 else .nan

/-- C10: saving owner incomes drops empty-string values silently (the result
is the same as on the input with those entries removed); if any kept entry's
value is non-numeric, non-finite or negative, no settings update is issued
(`none`); and an update that is issued carries exactly the kept entries, all
valid, with trimmed names — all-or-nothing at this boundary. -/
theorem c10_saveOwners (num : String → JsNumber)
    (inputs : List (String × String)) :
    handleSaveOwners num inputs =
      handleSaveOwners num (inputs.filter fun p => !(p.2 = "")) ∧
    ((∃ p ∈ keptEntries inputs, entryInvalid num p = true) →
      handleSaveOwners num inputs = none) ∧
    (∀ payload, handleSaveOwners num inputs = some payload →
      (∀ p ∈ keptEntries inputs, entryInvalid num p = false) ∧
      payload = (keptEntries inputs).map
        fun p => ⟨jsTrim p.1, finValue (num p.2)⟩) := by
  refine ⟨?_, ?_, ?_⟩
  · unfold handleSaveOwners
    rw [keptEntries_filter_empty]
  · intro hex
    obtain ⟨e, he⟩ := buildPayload_error num _ hex
    unfold handleSaveOwners
    rw [he]
  · intro payload hp
    unfold handleSaveOwners at hp
    cases hb : buildPayload num (keptEntries inputs) with
    | error e => rw [hb] at hp; cases hp
    | ok ps =>
      rw [hb] at hp
      obtain rfl : ps = payload := Option.some_inj.mp hp
      exact buildPayload_ok num _ _ hb

/-- Witness for C10: with a conversion that maps `"abc"` to NaN, saving the
single entry `("Ola", "abc")` issues no update. -/
theorem c10_saveOwners_witness :
    (("Ola", "abc") ∈ keptEntries [("Ola", "abc")] ∧
      entryInvalid sampleNum ("Ola", "abc") = true) ∧
    handleSaveOwners sampleNum [("Ola", "abc")] = none :=
  ⟨⟨by decide, by decide⟩,
   (c10_saveOwners sampleNum [("Ola", "abc")]).2.1
     ⟨("Ola", "abc"), by decide, by decide⟩⟩

end Settings

end Budsjett
